import Mathlib

/-!
Verification development for the scull character-device storage engine
(src/scull/scull.c).  The engine state is embedded shallowly:

* a quantum (fixed-size byte buffer) is a `List Nat` of byte values;
* a `struct scull_qset` node is represented by its `data` field, an
  `Option SlotArray` (`none` mirrors a NULL slot-array pointer); the
  `next` pointer is encoded by the enclosing chain list;
* `struct scull_dev` becomes `ScullDev` (chain, quantum, qset, size);
* `kzalloc` outcomes are driven by an explicit allocation plan
  (`List Bool`): the head of the plan is the outcome of the next
  allocation, and an exhausted plan means every allocation succeeds;
* `copy_to_user` / `copy_from_user` failure is a Boolean parameter of
  the call (the engine treats the copy primitive as an opaque fallible
  copy);
* the per-device mutex and its interruptible acquisition are outside
  the model: each operation is modelled as its critical section body,
  which the lock serializes in the C code.
-/

/-- A quantum: a byte buffer, bytes as natural values. -/
abbrev Quantum := List Nat

/-- The slot array of a `scull_qset` node: `qset` optional quantum
ownerships (`none` = slot empty / quantum not allocated). -/
abbrev SlotArray := List (Option Quantum)

/-- One `scull_qset` node, represented by its `data` field: `none`
mirrors a NULL slot-array pointer (`kzalloc` zeroes the node). -/
abbrev Segment := Option SlotArray

/-- The state of `struct scull_dev` (scull.c:47-55): segment chain head, current
quantum size, current slot-array size, logical byte size.  The
`access_key`, mutex and `cdev` members carry no storage state. -/
structure ScullDev where
  data : List Segment
  quantum : Nat
  qset : Nat
  size : Nat
deriving DecidableEq, Repr

/-- Draw the outcome of the next `kzalloc` from the allocation plan;
an exhausted plan means allocations succeed. -/
def allocNext : List Bool → Bool × List Bool
  | [] => (true, [])
  | b :: rest => (b, rest)

/-- The `while (n--)` walk of `scull_follow` (scull.c:222-231): the
cursor stands at index `p` of `chain`; each step follows `next`,
allocating a zeroed node when `next` is NULL, and stops with failure
(partial chain kept) when that allocation fails. -/
def followLoop : List Segment → Nat → Nat → List Bool → Bool × List Segment × List Bool
  | chain, _, 0, alloc => (true, chain, alloc)
  | chain, p, n + 1, alloc =>
    if p + 1 < chain.length then
      followLoop chain (p + 1) n alloc
    else
      let a := allocNext alloc
      if a.1 then
        followLoop (chain ++ [none]) (p + 1) n a.2
      else
        (false, chain, a.2)

/-- The function `scull_follow` (scull.c:210-234): return (success, device, plan).
On success the segment with index `n` exists in the returned chain;
on allocation failure the segments already created remain attached. -/
def scull_follow (dev : ScullDev) (n : Nat) (alloc : List Bool) :
    Bool × ScullDev × List Bool :=
  if dev.data.isEmpty then
    let a := allocNext alloc
    if a.1 then
      let r := followLoop [none] 0 n a.2
      (r.1, { dev with data := r.2.1 }, r.2.2)
    else
      (false, dev, a.2)
  else
    let r := followLoop dev.data 0 n alloc
    (r.1, { dev with data := r.2.1 }, r.2.2)

/-- Offset translation as inlined in `scull_read` (scull.c:277-284):
`(item, s_pos, q_pos)` from `f_pos`, `quantum`, `qset`. -/
def scull_read_translate (fpos quantum qset : Nat) : Nat × Nat × Nat :=
  let itemsize := quantum * qset
  let item := fpos / itemsize
  let rest := fpos % itemsize
  let s_pos := rest / quantum
  let q_pos := rest % quantum
  (item, s_pos, q_pos)

/-- Offset translation as inlined in `scull_write` (scull.c:320-327). -/
def scull_write_translate (fpos quantum qset : Nat) : Nat × Nat × Nat :=
  let itemsize := quantum * qset
  let item := fpos / itemsize
  let rest := fpos % itemsize
  let s_pos := rest / quantum
  let q_pos := rest % quantum
  (item, s_pos, q_pos)

/-- Result of a `scull_read` call: return value (negative errno or
bytes transferred), the bytes delivered to the caller, the device
after the call, the offset cursor after the call, the remaining
allocation plan. -/
structure ReadResult where
  retval : Int
  bytes : List Nat
  dev : ScullDev
  fpos : Nat
  alloc : List Bool
deriving DecidableEq, Repr

/-- The function `scull_read` (scull.c:259-307), the body inside the device lock.
`copyFail` is the outcome of the `copy_to_user` crossing (-EFAULT
when it fails). -/
def scull_read (dev : ScullDev) (fpos count : Nat) (alloc : List Bool)
    (copyFail : Bool) : ReadResult :=
  if dev.size < fpos then
    { retval := 0, bytes := [], dev := dev, fpos := fpos, alloc := alloc }
  else
    let count := if dev.size < fpos + count then dev.size - fpos else count
    let quantum := dev.quantum
    let t := scull_read_translate fpos quantum dev.qset
    let item := t.1
    let s_pos := t.2.1
    let q_pos := t.2.2
    let f := scull_follow dev item alloc
    let dev1 := f.2.1
    let alloc1 := f.2.2
    let slot : Option Quantum :=
      if f.1 then
        match dev1.data.getD item none with
        | none => none
        | some arr => arr.getD s_pos none
      else none
    match slot with
    | none =>
      { retval := 0, bytes := [], dev := dev1, fpos := fpos, alloc := alloc1 }
    | some q =>
      let count := if quantum - q_pos < count then quantum - q_pos else count
      if copyFail then
        { retval := -14, bytes := [], dev := dev1, fpos := fpos, alloc := alloc1 }
      else
        { retval := (count : Int), bytes := (q.drop q_pos).take count,
          dev := dev1, fpos := fpos + count, alloc := alloc1 }

/-- Result of a `scull_write` call. -/
structure WriteResult where
  retval : Int
  dev : ScullDev
  fpos : Nat
  alloc : List Bool
deriving DecidableEq, Repr

/-- The `memcpy` into a quantum: replace the bytes of `q` at positions
`[off, off + src.length)` by `src`. -/
def storeBytes (q : List Nat) (off : Nat) (src : List Nat) : List Nat :=
  q.take off ++ src ++ q.drop (off + src.length)

/-- The function `scull_write` (scull.c:309-367), the body inside the device lock.
The source buffer is `buf` (so `count = buf.length`); `copyFail` is
the outcome of the `copy_from_user` crossing.  Note scull.c:318
initialises `retval = 0`, so a NULL return of `scull_follow` makes
the call return 0 (scull.c:330-332); the slot-array and quantum
allocations return -ENOMEM (-12) on failure (scull.c:337,344). -/
def scull_write (dev : ScullDev) (fpos : Nat) (buf : List Nat)
    (alloc : List Bool) (copyFail : Bool) : WriteResult :=
  let quantum := dev.quantum
  let qset := dev.qset
  let t := scull_write_translate fpos quantum qset
  let item := t.1
  let s_pos := t.2.1
  let q_pos := t.2.2
  let f := scull_follow dev item alloc
  let dev1 := f.2.1
  let alloc1 := f.2.2
  if f.1 = false then
    { retval := 0, dev := dev1, fpos := fpos, alloc := alloc1 }
  else
    let step2 : Except (List Bool) (ScullDev × SlotArray × List Bool) :=
      match dev1.data.getD item none with
      | some arr => Except.ok (dev1, arr, alloc1)
      | none =>
        let a := allocNext alloc1
        if a.1 then
          let arr : SlotArray := List.replicate qset none
          Except.ok ({ dev1 with data := dev1.data.set item (some arr) }, arr, a.2)
        else
          Except.error a.2
    match step2 with
    | Except.error a =>
      { retval := -12, dev := dev1, fpos := fpos, alloc := a }
    | Except.ok (dev2, arr, alloc2) =>
      let step3 : Except (List Bool) (ScullDev × SlotArray × Quantum × List Bool) :=
        match arr.getD s_pos none with
        | some q => Except.ok (dev2, arr, q, alloc2)
        | none =>
          let a := allocNext alloc2
          if a.1 then
            let q : Quantum := List.replicate quantum 0
            let arr2 := arr.set s_pos (some q)
            Except.ok ({ dev2 with data := dev2.data.set item (some arr2) }, arr2, q, a.2)
          else
            Except.error a.2
      match step3 with
      | Except.error a =>
        { retval := -12, dev := dev2, fpos := fpos, alloc := a }
      | Except.ok (dev3, arr3, q, alloc3) =>
        let count := if quantum - q_pos < buf.length then quantum - q_pos else buf.length
        if copyFail then
          { retval := -14, dev := dev3, fpos := fpos, alloc := alloc3 }
        else
          let q2 := storeBytes q q_pos (buf.take count)
          let dev4 :=
            { dev3 with data := dev3.data.set item (some (arr3.set s_pos (some q2))) }
          let fpos2 := fpos + count
          let size2 := if dev4.size < fpos2 then fpos2 else dev4.size
          { retval := (count : Int), dev := { dev4 with size := size2 },
            fpos := fpos2, alloc := alloc3 }

/-- The function `scull_trim` (scull.c:186-208), called with the lock held: free the
whole chain, reset size to 0 and the device quantum/qset to the
process-wide module parameters `scull_quantum` / `scull_qset`. -/
def scull_trim (scull_quantum scull_qset : Nat) (dev : ScullDev) : ScullDev :=
  let _ := dev
  { data := [], quantum := scull_quantum, qset := scull_qset, size := 0 }

/-- The device table built by `scull_init` (scull.c:419-434): the
`kzalloc` and the initialisation loop both use the literal 4, not the
`scull_num_devs` module parameter. -/
def scull_init_devices (scull_quantum scull_qset scull_num_devs : Nat) :
    List ScullDev :=
  let _ := scull_num_devs
  List.replicate 4
    { data := [], quantum := scull_quantum, qset := scull_qset, size := 0 }

/-- The size of the device-number range registered by `scull_init`
(scull.c:409 and 411 pass the literal 4 to `register_chrdev_region` /
`alloc_chrdev_region`). -/
def scull_init_minor_count (scull_num_devs : Nat) : Nat :=
  let _ := scull_num_devs
  4

/-- Structural well-formedness of a device: positive configuration,
every allocated slot array has length `qset`, every allocated quantum
has length `quantum`.  This is the invariant the allocation sites of
`scull_write` establish (scull.c:335,342) and `scull_init` /
`scull_trim` start from. -/
def ScullDev.WF (dev : ScullDev) : Prop :=
  0 < dev.quantum ∧ 0 < dev.qset ∧
  ∀ seg ∈ dev.data, ∀ arr ∈ seg, arr.length = dev.qset ∧
    ∀ slot ∈ arr, ∀ q ∈ slot, q.length = dev.quantum

/-- The clamped transfer length of a single write call
(scull.c:348-350): the source length, capped so the copy does not
cross the quantum boundary. -/
def wcount (dev : ScullDev) (f : Nat) (b : List Nat) : Nat :=
  if dev.quantum - (scull_write_translate f dev.quantum dev.qset).2.2 < b.length then
    dev.quantum - (scull_write_translate f dev.quantum dev.qset).2.2
  else b.length

/-- Apply a sequence of write calls (all allocations succeed, no copy
faults), collecting for each call its `offset + bytes_written`
contribution. -/
def writeSeq : ScullDev → List (Nat × List Nat) → ScullDev × List Nat
  | dev, [] => (dev, [])
  | dev, (f, b) :: rest =>
    let w := scull_write dev f b [] false
    let r := writeSeq w.dev rest
    (r.1, (f + (w.fpos - f)) :: r.2)

/-- Fresh device with the default module configuration, used as the
concrete failing input for the C2 code-bug exhibit. -/
def devC2 : ScullDev := { data := [], quantum := 4000, qset := 1000, size := 0 }

/-- Caller-side whole-buffer write: the host re-issues `scull_write`
at the advanced offset until the buffer is exhausted or a call makes
no progress; this is how a whole-buffer `write(2)` reaches the engine
as several single-quantum calls (spec §8).  Fuel bounds the loop. -/
def writeFullGo : Nat → ScullDev → Nat → List Nat → ScullDev × Nat
  | 0, dev, fpos, _ => (dev, fpos)
  | fuel + 1, dev, fpos, buf =>
    if buf.isEmpty then (dev, fpos)
    else
      let w := scull_write dev fpos buf [] false
      if w.retval ≤ 0 then (w.dev, w.fpos)
      else writeFullGo fuel w.dev w.fpos (buf.drop (w.fpos - fpos))

/-- Whole-buffer write entry point (fuel `buf.length + 1` suffices:
every productive call removes at least one byte). -/
def scull_write_full (dev : ScullDev) (fpos : Nat) (buf : List Nat) :
    ScullDev × Nat :=
  writeFullGo (buf.length + 1) dev fpos buf

/-- The device of the spec example after `write(dev, 0, "ABCDEFGH")`
with quantum 4 and qset 2: size 8, segment 0 slots 0 and 1 occupied. -/
def devC3a : ScullDev :=
  (scull_write_full { data := [], quantum := 4, qset := 2, size := 0 } 0
    [65, 66, 67, 68, 69, 70, 71, 72]).1

/-- The spec example device after the further `write(dev, 10, "Z")`. -/
def devC3 : ScullDev := (scull_write devC3a 10 [90] [] false).dev

/-! Helper lemmas about `getD`, `scull_follow` and `storeBytes`. -/

theorem getD_set_self {α : Type} (l : List α) (i : Nat) (a d : α)
    (h : i < l.length) : (l.set i a).getD i d = a := by
  rw [List.getD_eq_getElem?_getD, List.getElem?_set_self h]
  rfl

theorem getD_append_left {α : Type} (l1 l2 : List α) (i : Nat) (d : α)
    (h : i < l1.length) : (l1 ++ l2).getD i d = l1.getD i d := by
  rw [List.getD_eq_getElem?_getD, List.getD_eq_getElem?_getD,
    List.getElem?_append, if_pos h]

theorem getD_append_replicate_none (l : List Segment) (k i : Nat)
    (h : l.length ≤ i) :
    (l ++ List.replicate k (none : Segment)).getD i none = none := by
  rw [List.getD_eq_getElem?_getD, List.getElem?_append_right h,
    List.getElem?_replicate]
  split <;> rfl

theorem getD_mem {α : Type} (l : List α) (i : Nat) (d a : α)
    (h : l.getD i d = a) (hne : a ≠ d) : a ∈ l := by
  by_cases hi : i < l.length
  · rw [List.getD_eq_getElem l d hi] at h
    exact h ▸ List.getElem_mem hi
  · rw [List.getD_eq_getElem?_getD, List.getElem?_eq_none (by omega)] at h
    exact absurd h.symm hne

/-- Reading back what `storeBytes` stored. -/
theorem storeBytes_extract (q src : List Nat) (off : Nat)
    (h : off ≤ q.length) :
    ((storeBytes q off src).drop off).take src.length = src := by
  have h1 : (q.take off).length = off := by
    simp [List.length_take]
    omega
  have h2 := List.drop_left (q.take off) (src ++ q.drop (off + src.length))
  rw [h1] at h2
  unfold storeBytes
  rw [List.append_assoc, h2]
  exact List.take_left _ _

/-- Running `followLoop` with an exhausted allocation plan succeeds and extends
the chain with fresh empty nodes up to index `p + n`. -/
theorem followLoop_nil (n : Nat) :
    ∀ (chain : List Segment) (p : Nat), p < chain.length →
      followLoop chain p n [] =
        (true, chain ++ List.replicate (p + n + 1 - chain.length) (none : Segment), []) := by
  induction n with
  | zero =>
    intro chain p hp
    have h0 : p + 0 + 1 - chain.length = 0 := by omega
    simp [followLoop, h0]
  | succ n ih =>
    intro chain p hp
    by_cases h : p + 1 < chain.length
    · have e : followLoop chain p (n + 1) [] = followLoop chain (p + 1) n [] := by
        simp [followLoop, h]
      rw [e, ih chain (p + 1) h]
      have h2 : p + 1 + n + 1 - chain.length = p + (n + 1) + 1 - chain.length := by
        omega
      rw [h2]
    · have e : followLoop chain p (n + 1) [] = followLoop (chain ++ [none]) (p + 1) n [] := by
        simp [followLoop, h, allocNext]
      have hlen : chain.length = p + 1 := by omega
      rw [e, ih (chain ++ [none]) (p + 1) (by simp [hlen])]
      have h2 : p + 1 + n + 1 - (chain ++ [none]).length = n := by
        simp [hlen]
      have h3 : p + (n + 1) + 1 - chain.length = n + 1 := by omega
      rw [h2, h3, List.append_assoc]
      simp [List.replicate_succ]

/-- Running `scull_follow` with an exhausted allocation plan succeeds and
extends the chain with fresh empty nodes up to index `n`. -/
theorem scull_follow_nil (dev : ScullDev) (n : Nat) :
    scull_follow dev n [] =
      (true,
       { dev with data := dev.data ++ List.replicate (n + 1 - dev.data.length) none },
       []) := by
  cases hd : dev.data with
  | nil =>
    simp [scull_follow, hd, allocNext, followLoop_nil n [none] 0 (by simp),
      List.replicate_succ]
  | cons s rest =>
    simp [scull_follow, hd, followLoop_nil n (s :: rest) 0 (by simp)]

/-- The loop `followLoop` only ever appends fresh empty nodes to the chain, on
success and on failure alike. -/
theorem followLoop_frame (n : Nat) :
    ∀ (chain : List Segment) (p : Nat) (alloc : List Bool),
      ∃ k, (followLoop chain p n alloc).2.1 = chain ++ List.replicate k (none : Segment) := by
  induction n with
  | zero =>
    intro chain p alloc
    exact ⟨0, by simp [followLoop]⟩
  | succ n ih =>
    intro chain p alloc
    by_cases h : p + 1 < chain.length
    · have e : followLoop chain p (n + 1) alloc = followLoop chain (p + 1) n alloc := by
        simp [followLoop, h]
      rw [e]
      exact ih chain (p + 1) alloc
    · by_cases ha : (allocNext alloc).1 = true
      · have e : followLoop chain p (n + 1) alloc =
            followLoop (chain ++ [none]) (p + 1) n (allocNext alloc).2 := by
          simp [followLoop, h, ha]
        obtain ⟨k, hk⟩ := ih (chain ++ [none]) (p + 1) (allocNext alloc).2
        refine ⟨k + 1, ?_⟩
        rw [e, hk, List.append_assoc]
        simp [List.replicate_succ]
      · have e : followLoop chain p (n + 1) alloc = (false, chain, (allocNext alloc).2) := by
          simp [followLoop, h, ha]
        exact ⟨0, by rw [e]; simp⟩

/-- The function `scull_follow` only appends fresh empty nodes to the chain and
never changes size, quantum or qset. -/
theorem scull_follow_frame (dev : ScullDev) (n : Nat) (alloc : List Bool) :
    ∃ k, (scull_follow dev n alloc).2.1.data = dev.data ++ List.replicate k (none : Segment) ∧
      (scull_follow dev n alloc).2.1.quantum = dev.quantum ∧
      (scull_follow dev n alloc).2.1.qset = dev.qset ∧
      (scull_follow dev n alloc).2.1.size = dev.size := by
  cases hd : dev.data with
  | nil =>
    by_cases ha : (allocNext alloc).1 = true
    · obtain ⟨k, hk⟩ := followLoop_frame n [none] 0 (allocNext alloc).2
      refine ⟨k + 1, ?_⟩
      simp [scull_follow, hd, ha, hk, List.replicate_succ]
    · exact ⟨0, by simp [scull_follow, hd, ha]⟩
  | cons s rest =>
    obtain ⟨k, hk⟩ := followLoop_frame n (s :: rest) 0 alloc
    refine ⟨k, ?_⟩
    simp [scull_follow, hd, hk]

/-! Claim theorems. -/

/-- Claim C5: for every logical offset and every positive quantum and qset,
the read-side and write-side inlined translations compute the same
function, and both compute segment = pos / itemsize, slot =
(pos % itemsize) / quantum, intra = (pos % itemsize) % quantum with
itemsize = quantum * qset. -/
theorem scull_translate_agree (pos quantum qset : Nat)
    (hq : 0 < quantum) (hs : 0 < qset) :
    scull_read_translate pos quantum qset = scull_write_translate pos quantum qset ∧
    scull_read_translate pos quantum qset =
      (pos / (quantum * qset), (pos % (quantum * qset)) / quantum,
        (pos % (quantum * qset)) % quantum) :=
  ⟨rfl, rfl⟩

theorem scull_translate_agree_witness :
    0 < 4 ∧ 0 < 2 ∧
      (scull_read_translate 13 4 2 = scull_write_translate 13 4 2 ∧
       scull_read_translate 13 4 2 =
         (13 / (4 * 2), (13 % (4 * 2)) / 4, (13 % (4 * 2)) % 4)) :=
  ⟨by decide, by decide, scull_translate_agree 13 4 2 (by decide) (by decide)⟩

/-- Claim C9: a read whose offset is strictly greater than the device size
returns zero bytes transferred as a success (retval 0, not an error),
does not advance the offset cursor, and leaves the device untouched. -/
theorem scull_read_past_end (dev : ScullDev) (fpos count : Nat)
    (alloc : List Bool) (cf : Bool) (h : dev.size < fpos) :
    (scull_read dev fpos count alloc cf).retval = 0 ∧
    (scull_read dev fpos count alloc cf).bytes = [] ∧
    (scull_read dev fpos count alloc cf).fpos = fpos ∧
    (scull_read dev fpos count alloc cf).dev = dev := by
  simp [scull_read, h]

theorem scull_read_past_end_witness :
    (⟨[], 4, 2, 0⟩ : ScullDev).size < 5 ∧
      ((scull_read ⟨[], 4, 2, 0⟩ 5 3 [] false).retval = 0 ∧
       (scull_read ⟨[], 4, 2, 0⟩ 5 3 [] false).bytes = [] ∧
       (scull_read ⟨[], 4, 2, 0⟩ 5 3 [] false).fpos = 5 ∧
       (scull_read ⟨[], 4, 2, 0⟩ 5 3 [] false).dev = ⟨[], 4, 2, 0⟩) :=
  ⟨by decide, scull_read_past_end ⟨[], 4, 2, 0⟩ 5 3 [] false (by decide)⟩

/-- Claim C6: after trim a device has size 0, an empty chain (no reachable
segments or quanta), quantum and qset equal to the process-wide
values, and any subsequent read at offset 0 of any requested length
transfers zero bytes, whatever the allocation plan and copy outcome. -/
theorem scull_trim_reset_read_empty (q s : Nat) (dev : ScullDev)
    (count : Nat) (alloc : List Bool) (cf : Bool) :
    (scull_trim q s dev).size = 0 ∧
    (scull_trim q s dev).data = [] ∧
    (scull_trim q s dev).quantum = q ∧
    (scull_trim q s dev).qset = s ∧
    (scull_read (scull_trim q s dev) 0 count alloc cf).retval = 0 ∧
    (scull_read (scull_trim q s dev) 0 count alloc cf).bytes = [] := by
  refine ⟨rfl, rfl, rfl, rfl, ?_, ?_⟩ <;>
    by_cases ha : (allocNext alloc).1 = true <;>
      simp [scull_read, scull_trim, scull_follow, followLoop, ha,
        scull_read_translate]

/-- Claim C4 (code-bug exhibit): `scull_init` ignores the `scull_num_devs`
module parameter; with `scull_num_devs = 8` it still allocates and
initialises exactly 4 devices and registers a 4-wide minor range. -/
theorem scull_init_ignores_num_devs :
    (scull_init_devices 4000 1000 8).length = 4 ∧
    scull_init_minor_count 8 = 4 ∧
    (scull_init_devices 4000 1000 8).length ≠ 8 ∧
    ∀ d ∈ scull_init_devices 4000 1000 8,
      d = { data := [], quantum := 4000, qset := 1000, size := 0 } := by
  refine ⟨rfl, rfl, by decide, ?_⟩
  intro d hd
  simp [scull_init_devices] at hd
  exact hd

/-- Claim C2 (code-bug exhibit): when the very first segment allocation
fails inside `scull_follow`, `scull_write` returns 0 — a success
result reporting zero bytes written — instead of -ENOMEM (-12); the
slot-array and quantum allocation failures in the same function do
return -12. -/
theorem scull_write_follow_failure_returns_zero :
    (scull_write devC2 0 [65] [false] false).retval = 0 ∧
    (scull_write devC2 0 [65] [false] false).retval ≠ -12 ∧
    (scull_write devC2 0 [65] [false] false).dev = devC2 ∧
    (scull_write devC2 0 [65] [false] false).fpos = 0 ∧
    (scull_write devC2 0 [65] [true, false] false).retval = -12 := by
  decide

/-- Claim C3 counterexample: in the spec's example state (quantum 4, qset 2,
"ABCDEFGH" written at 0, "Z" written at 10), a read of the
never-written range [8,9) transfers one byte, not zero: the write at
offset 10 allocated the quantum covering bytes [8,12) zero-filled, so
the read does not land on a hole. -/
theorem scull_c3_counterexample :
    devC3a.size = 8 ∧
    devC3.size = 11 ∧
    (scull_read devC3 8 1 [] false).retval = 1 ∧
    (scull_read devC3 8 1 [] false).retval ≠ 0 := by
  decide

/-- Claim C3 amended: in that state the read of [8,9) returns one byte of
value 0 (zero-filled data from the quantum the write at offset 10
allocated), a success — in particular not a BoundaryFault (-14). -/
theorem scull_c3_amended :
    (scull_read devC3 8 1 [] false).bytes = [0] ∧
    (scull_read devC3 8 1 [] false).retval = 1 ∧
    (scull_read devC3 8 1 [] false).retval ≠ -14 := by
  decide

/-- Claim C7: a single read or write call never transfers bytes across a
quantum boundary: the offset advance (and for read the byte count
delivered) is at most `quantum - intra_offset` at the translated
position; a read is further capped by the requested length and by
`size - offset`, a write by the source length.  This holds on every
path, including allocation failures and copy faults. -/
theorem scull_transfer_bounds (dev : ScullDev) (fpos count : Nat)
    (buf : List Nat) (alloc : List Bool) (cf : Bool) :
    ((scull_read dev fpos count alloc cf).fpos - fpos ≤
        dev.quantum - (scull_read_translate fpos dev.quantum dev.qset).2.2 ∧
      (scull_read dev fpos count alloc cf).bytes.length ≤
        dev.quantum - (scull_read_translate fpos dev.quantum dev.qset).2.2 ∧
      (scull_read dev fpos count alloc cf).fpos - fpos ≤ count ∧
      (scull_read dev fpos count alloc cf).bytes.length ≤ count ∧
      (scull_read dev fpos count alloc cf).fpos - fpos ≤ dev.size - fpos ∧
      (scull_read dev fpos count alloc cf).bytes.length ≤ dev.size - fpos) ∧
    ((scull_write dev fpos buf alloc cf).fpos - fpos ≤
        dev.quantum - (scull_write_translate fpos dev.quantum dev.qset).2.2 ∧
      (scull_write dev fpos buf alloc cf).fpos - fpos ≤ buf.length) := by
  constructor
  · simp only [scull_read]
    split
    case isTrue h => simp
    case isFalse h =>
      split
      · simp
      · split
        · simp
        · simp only [List.length_take, List.length_drop]
          split_ifs <;> omega
  · simp only [scull_write]
    split
    case isTrue h => simp
    case isFalse h =>
      split
      · simp
      · split
        · simp
        · split
          · simp
          · split_ifs <;> simp <;> omega

theorem getD_replicate_none {α : Type} (k i : Nat) :
    (List.replicate k (none : Option α)).getD i none = none := by
  rw [List.getD_eq_getElem?_getD, List.getElem?_replicate]
  split <;> rfl

/-- The translated slot index is always inside the slot array. -/
theorem write_s_pos_lt (f quantum qset : Nat) (hq : 0 < quantum) (hs : 0 < qset) :
    (scull_write_translate f quantum qset).2.1 < qset := by
  simp only [scull_write_translate]
  have h1 : f % (quantum * qset) < quantum * qset :=
    Nat.mod_lt _ (Nat.mul_pos hq hs)
  exact (Nat.div_lt_iff_lt_mul hq).mpr (by rw [Nat.mul_comm qset quantum]; exact h1)

/-- The translated intra-quantum offset is always inside the quantum. -/
theorem write_q_pos_lt (f quantum qset : Nat) (hq : 0 < quantum) :
    (scull_write_translate f quantum qset).2.2 < quantum := by
  simp only [scull_write_translate]
  exact Nat.mod_lt _ hq


theorem replicate_none_getElem_getD {α : Type} (k i : Nat) :
    (List.replicate k (none : Option α))[i]?.getD none = none := by
  rw [List.getElem?_replicate]
  split <;> rfl

/-- Complete description of a write call on a well-formed device when
every allocation succeeds and the copy does not fault: there are a
slot array `arr` and a quantum `q` of the right lengths such that the
written segment holds `arr` with `q`'s bytes overwritten at the
translated position, the call reports `wcount` bytes written, and the
size becomes the maximum of the old size and `offset + wcount`. -/
theorem scull_write_nil_shape (dev : ScullDev) (f : Nat) (b : List Nat)
    (hwf : dev.WF) :
    ∃ (arr : SlotArray) (q : Quantum),
      q.length = dev.quantum ∧
      (scull_write_translate f dev.quantum dev.qset).2.1 < arr.length ∧
      (scull_write dev f b [] false).dev.data =
        (dev.data ++ List.replicate
          ((scull_write_translate f dev.quantum dev.qset).1 + 1 - dev.data.length)
          (none : Segment)).set (scull_write_translate f dev.quantum dev.qset).1
          (some (arr.set (scull_write_translate f dev.quantum dev.qset).2.1
            (some (storeBytes q (scull_write_translate f dev.quantum dev.qset).2.2
              (b.take (wcount dev f b)))))) ∧
      (scull_write dev f b [] false).fpos = f + wcount dev f b ∧
      (scull_write dev f b [] false).retval = ((wcount dev f b : Nat) : Int) ∧
      (scull_write dev f b [] false).dev.quantum = dev.quantum ∧
      (scull_write dev f b [] false).dev.qset = dev.qset ∧
      (scull_write dev f b [] false).dev.size =
        max dev.size (f + wcount dev f b) := by
  obtain ⟨hq0, hs0, hwfseg⟩ := hwf
  have hspos := write_s_pos_lt f dev.quantum dev.qset hq0 hs0
  have hf := scull_follow_nil dev (scull_write_translate f dev.quantum dev.qset).1
  rcases hA : (dev.data ++ List.replicate
      ((scull_write_translate f dev.quantum dev.qset).1 + 1 - dev.data.length)
      (none : Segment)).getD (scull_write_translate f dev.quantum dev.qset).1 none
    with _ | arr
  · -- the segment node has no slot array yet: both get allocated
    rw [List.getD_eq_getElem?_getD] at hA
    refine ⟨List.replicate dev.qset none, List.replicate dev.quantum 0,
      by simp, by simpa using hspos, ?_, ?_, ?_, ?_, ?_, ?_⟩
    · simp [scull_write, hf, hA, allocNext, replicate_none_getElem_getD,
        wcount, List.set_set]
    · simp [scull_write, hf, hA, allocNext, replicate_none_getElem_getD, wcount]
    · simp [scull_write, hf, hA, allocNext, replicate_none_getElem_getD, wcount]
    · simp [scull_write, hf, hA, allocNext, replicate_none_getElem_getD]
    · simp [scull_write, hf, hA, allocNext, replicate_none_getElem_getD]
    · simp [scull_write, hf, hA, allocNext, replicate_none_getElem_getD, wcount]
      split_ifs <;> omega
  · -- the slot array exists in the chain
    have hin : (scull_write_translate f dev.quantum dev.qset).1 < dev.data.length := by
      by_contra hge
      rw [getD_append_replicate_none _ _ _ (by omega)] at hA
      exact Option.noConfusion hA
    have hA0 : dev.data.getD (scull_write_translate f dev.quantum dev.qset).1 none
        = some arr := by
      rw [getD_append_left _ _ _ _ hin] at hA
      exact hA
    have hmem : (some arr : Segment) ∈ dev.data :=
      getD_mem _ _ _ _ hA0 (by simp)
    have harrwf := hwfseg (some arr) hmem arr rfl
    rw [List.getD_eq_getElem?_getD] at hA
    rcases hB : arr.getD (scull_write_translate f dev.quantum dev.qset).2.1 none
      with _ | q
    · -- the slot is empty: the quantum gets allocated
      rw [List.getD_eq_getElem?_getD] at hB
      refine ⟨arr, List.replicate dev.quantum 0,
        by simp, by rw [harrwf.1]; exact hspos, ?_, ?_, ?_, ?_, ?_, ?_⟩
      · simp [scull_write, hf, hA, hB, allocNext, wcount, List.set_set]
      · simp [scull_write, hf, hA, hB, allocNext, wcount]
      · simp [scull_write, hf, hA, hB, allocNext, wcount]
      · simp [scull_write, hf, hA, hB, allocNext]
      · simp [scull_write, hf, hA, hB, allocNext]
      · simp [scull_write, hf, hA, hB, allocNext, wcount]
        split_ifs <;> omega
    · -- slot array and quantum both exist already
      have hsin : (scull_write_translate f dev.quantum dev.qset).2.1 < arr.length := by
        rw [harrwf.1]
        exact hspos
      have hqmem : (some q : Option Quantum) ∈ arr :=
        getD_mem _ _ _ _ hB (by simp)
      have hqlen : q.length = dev.quantum := harrwf.2 (some q) hqmem q rfl
      rw [List.getD_eq_getElem?_getD] at hB
      refine ⟨arr, q, hqlen, hsin, ?_, ?_, ?_, ?_, ?_, ?_⟩
      · simp [scull_write, hf, hA, hB, allocNext, wcount, List.set_set]
      · simp [scull_write, hf, hA, hB, allocNext, wcount]
      · simp [scull_write, hf, hA, hB, allocNext, wcount]
      · simp [scull_write, hf, hA, hB, allocNext]
      · simp [scull_write, hf, hA, hB, allocNext]
      · simp [scull_write, hf, hA, hB, allocNext, wcount]
        split_ifs <;> omega

/-- A read within `size` that lands on an allocated quantum returns
the requested bytes (when the request does not cross the quantum
boundary) and leaves the device unchanged. -/
theorem scull_read_hit (dev : ScullDev) (fpos count : Nat)
    (arr : SlotArray) (q : Quantum)
    (hcnt : fpos + count ≤ dev.size)
    (hitem : (scull_read_translate fpos dev.quantum dev.qset).1 < dev.data.length)
    (harr : dev.data.getD (scull_read_translate fpos dev.quantum dev.qset).1 none
      = some arr)
    (hq : arr.getD (scull_read_translate fpos dev.quantum dev.qset).2.1 none
      = some q)
    (hclamp : count ≤ dev.quantum - (scull_read_translate fpos dev.quantum dev.qset).2.2) :
    scull_read dev fpos count [] false =
      { retval := (count : Int),
        bytes := (q.drop (scull_read_translate fpos dev.quantum dev.qset).2.2).take count,
        dev := dev, fpos := fpos + count, alloc := [] } := by
  have hf := scull_follow_nil dev (scull_read_translate fpos dev.quantum dev.qset).1
  have hrep : (scull_read_translate fpos dev.quantum dev.qset).1 + 1 - dev.data.length
      = 0 := by omega
  rw [hrep] at hf
  have h1 : ¬ dev.size < fpos := by omega
  have h2 : ¬ dev.size < fpos + count := by omega
  have h3 : ¬ (dev.quantum - (scull_read_translate fpos dev.quantum dev.qset).2.2 < count) := by
    omega
  rw [List.getD_eq_getElem?_getD] at harr hq
  simp [scull_read, hf, h1, h2, h3, harr, hq]

/-- Claim C1: write-then-read round trip with the single-call transfer
semantics of read and write.  If `write(dev, o, b)` on a well-formed
device reports all of `b` written (retval = len(b)), then an
immediately following `read(dev, o, len(b))` — no intervening write —
returns exactly the bytes `b`. -/
theorem scull_write_read_roundtrip (dev : ScullDev) (fpos : Nat)
    (buf : List Nat) (hwf : dev.WF)
    (hw : (scull_write dev fpos buf [] false).retval = (buf.length : Int)) :
    (scull_read (scull_write dev fpos buf [] false).dev fpos buf.length [] false).bytes
      = buf ∧
    (scull_read (scull_write dev fpos buf [] false).dev fpos buf.length [] false).retval
      = (buf.length : Int) := by
  obtain ⟨arr, q, hqlen, hsin, hdata, hfposw, hretval, hquantum, hqset, hsize⟩ :=
    scull_write_nil_shape dev fpos buf hwf
  obtain ⟨hq0, hs0, -⟩ := hwf
  have hc : wcount dev fpos buf = buf.length := by
    rw [hretval] at hw
    exact_mod_cast hw
  have hclamp : buf.length ≤
      dev.quantum - (scull_write_translate fpos dev.quantum dev.qset).2.2 := by
    by_contra hlt
    unfold wcount at hc
    rw [if_pos (by omega)] at hc
    omega
  have ht : scull_read_translate fpos (scull_write dev fpos buf [] false).dev.quantum
      (scull_write dev fpos buf [] false).dev.qset
      = scull_write_translate fpos dev.quantum dev.qset := by
    rw [hquantum, hqset]
    rfl
  have hlen : (scull_write_translate fpos dev.quantum dev.qset).1 <
      (scull_write dev fpos buf [] false).dev.data.length := by
    rw [hdata]
    simp
    omega
  have hqpos : (scull_write_translate fpos dev.quantum dev.qset).2.2 < dev.quantum :=
    write_q_pos_lt fpos dev.quantum dev.qset hq0
  have hbuf : buf.take (wcount dev fpos buf) = buf := by
    rw [hc]
    exact List.take_length buf
  have hread := scull_read_hit (scull_write dev fpos buf [] false).dev fpos buf.length
    (arr.set (scull_write_translate fpos dev.quantum dev.qset).2.1
      (some (storeBytes q (scull_write_translate fpos dev.quantum dev.qset).2.2
        (buf.take (wcount dev fpos buf)))))
    (storeBytes q (scull_write_translate fpos dev.quantum dev.qset).2.2
      (buf.take (wcount dev fpos buf)))
    (by rw [hsize, hc]; omega)
    (by rw [ht]; exact hlen)
    (by rw [ht, hdata]
        exact getD_set_self _ _ _ _ (by simp; omega))
    (by rw [ht]
        exact getD_set_self _ _ _ _ hsin)
    (by rw [ht, hquantum]; exact hclamp)
  rw [hread]
  constructor
  · rw [ht, hbuf]
    have := storeBytes_extract q buf
      (scull_write_translate fpos dev.quantum dev.qset).2.2 (by omega)
    simpa using this
  · rfl

theorem scull_write_read_roundtrip_witness :
    (⟨[], 4, 2, 0⟩ : ScullDev).WF ∧
    (scull_write ⟨[], 4, 2, 0⟩ 1 [65, 66] [] false).retval
      = (([65, 66] : List Nat).length : Int) ∧
    ((scull_read (scull_write ⟨[], 4, 2, 0⟩ 1 [65, 66] [] false).dev 1
        ([65, 66] : List Nat).length [] false).bytes = [65, 66] ∧
      (scull_read (scull_write ⟨[], 4, 2, 0⟩ 1 [65, 66] [] false).dev 1
        ([65, 66] : List Nat).length [] false).retval
        = (([65, 66] : List Nat).length : Int)) := by
  have hwf : (⟨[], 4, 2, 0⟩ : ScullDev).WF :=
    ⟨by decide, by decide, by intro seg h; exact absurd h (List.not_mem_nil seg)⟩
  exact ⟨hwf, by decide,
    scull_write_read_roundtrip ⟨[], 4, 2, 0⟩ 1 [65, 66] hwf (by decide)⟩

/-- The offset advance and new size of a write call when every
allocation succeeds and the copy does not fault (no well-formedness
needed). -/
theorem scull_write_nil_size_fpos (dev : ScullDev) (f : Nat) (b : List Nat) :
    (scull_write dev f b [] false).fpos = f + wcount dev f b ∧
    (scull_write dev f b [] false).dev.size = max dev.size (f + wcount dev f b) := by
  have hf := scull_follow_nil dev (scull_write_translate f dev.quantum dev.qset).1
  rcases hA : (dev.data ++ List.replicate
      ((scull_write_translate f dev.quantum dev.qset).1 + 1 - dev.data.length)
      (none : Segment)).getD (scull_write_translate f dev.quantum dev.qset).1 none
    with _ | arr
  · rw [List.getD_eq_getElem?_getD] at hA
    constructor
    · simp [scull_write, hf, hA, allocNext, replicate_none_getElem_getD, wcount]
    · simp [scull_write, hf, hA, allocNext, replicate_none_getElem_getD, wcount]
      split_ifs <;> omega
  · rw [List.getD_eq_getElem?_getD] at hA
    rcases hB : arr.getD (scull_write_translate f dev.quantum dev.qset).2.1 none
      with _ | q
    · rw [List.getD_eq_getElem?_getD] at hB
      constructor
      · simp [scull_write, hf, hA, hB, allocNext, wcount]
      · simp [scull_write, hf, hA, hB, allocNext, wcount]
        split_ifs <;> omega
    · rw [List.getD_eq_getElem?_getD] at hB
      constructor
      · simp [scull_write, hf, hA, hB, allocNext, wcount]
      · simp [scull_write, hf, hA, hB, allocNext, wcount]
        split_ifs <;> omega

/-- A read either leaves the device untouched (early return) or
returns exactly the device produced by `scull_follow`. -/
theorem scull_read_dev_cases (dev : ScullDev) (fpos count : Nat)
    (alloc : List Bool) (cf : Bool) :
    (scull_read dev fpos count alloc cf).dev = dev ∨
    (scull_read dev fpos count alloc cf).dev =
      (scull_follow dev (scull_read_translate fpos dev.quantum dev.qset).1 alloc).2.1 := by
  simp only [scull_read]
  split
  · exact Or.inl rfl
  · split
    · exact Or.inr rfl
    · split
      · exact Or.inr rfl
      · exact Or.inr rfl

/-- A read never changes the device size. -/
theorem scull_read_size_eq (dev : ScullDev) (fpos count : Nat)
    (alloc : List Bool) (cf : Bool) :
    (scull_read dev fpos count alloc cf).dev.size = dev.size := by
  obtain ⟨k, -, -, -, hsz⟩ := scull_follow_frame dev
    (scull_read_translate fpos dev.quantum dev.qset).1 alloc
  rcases scull_read_dev_cases dev fpos count alloc cf with h | h
  · rw [h]
  · rw [h, hsz]

/-- A write never shrinks the size, and a write whose copy faults
leaves the size unchanged — whatever the allocation plan. -/
theorem scull_write_size_facts (dev : ScullDev) (fpos : Nat) (b : List Nat)
    (alloc : List Bool) (cf : Bool) :
    dev.size ≤ (scull_write dev fpos b alloc cf).dev.size ∧
    (cf = true → (scull_write dev fpos b alloc cf).dev.size = dev.size) := by
  obtain ⟨k, -, -, -, hsz⟩ := scull_follow_frame dev
    (scull_write_translate fpos dev.quantum dev.qset).1 alloc
  simp only [scull_write]
  split
  · simp [hsz]
  · split
    case h_1 a heq =>
      simp [hsz]
    case h_2 dev2 arr alloc2 heq =>
      have hdev2 : dev2.size = dev.size := by
        split at heq
        · rw [Except.ok.injEq, Prod.mk.injEq] at heq
          rw [← heq.1, hsz]
        · split at heq
          · rw [Except.ok.injEq, Prod.mk.injEq] at heq
            rw [← heq.1]
            exact hsz
          · exact absurd heq (by simp)
      split
      case h_1 a heq3 =>
        simp [hdev2]
      case h_2 dev3 arr3 q alloc3 heq3 =>
        have hdev3 : dev3.size = dev.size := by
          split at heq3
          · rw [Except.ok.injEq, Prod.mk.injEq] at heq3
            rw [← heq3.1, hdev2]
          · split at heq3
            · rw [Except.ok.injEq, Prod.mk.injEq] at heq3
              rw [← heq3.1]
              exact hdev2
            · exact absurd heq3 (by simp)
        split
        · simp [hdev3]
        · constructor
          · dsimp only
            split_ifs <;> omega
          · intro hcf
            simp_all

/-- Folding the per-call contributions: after a sequence of writes the
size is the running maximum of the starting size and every call's
`offset + bytes_written`. -/
theorem writeSeq_size (ws : List (Nat × List Nat)) :
    ∀ dev : ScullDev,
      (writeSeq dev ws).1.size = (writeSeq dev ws).2.foldl max dev.size := by
  induction ws with
  | nil =>
    intro dev
    simp [writeSeq]
  | cons hd tl ih =>
    intro dev
    obtain ⟨f, b⟩ := hd
    obtain ⟨hfp, hsz⟩ := scull_write_nil_size_fpos dev f b
    simp only [writeSeq, List.foldl_cons]
    rw [ih (scull_write dev f b [] false).dev]
    have hmax : max dev.size (f + ((scull_write dev f b [] false).fpos - f))
        = (scull_write dev f b [] false).dev.size := by
      rw [hfp, hsz]
      omega
    rw [hmax]

/-- Claim C8: starting from the empty state, after any sequence of
successful writes the size equals the maximum over the sequence of
`offset + bytes_actually_written` (`foldl max 0` of the per-call
contributions); moreover reads never change the size, writes never
decrease it, a write whose copy faults leaves it unchanged, and only
`scull_trim` resets it to 0. -/
theorem scull_size_max_of_writes :
    (∀ (dev : ScullDev) (ws : List (Nat × List Nat)),
      dev.size = 0 → dev.data = [] →
      (writeSeq dev ws).1.size = (writeSeq dev ws).2.foldl max 0) ∧
    (∀ (dev : ScullDev) (fpos count : Nat) (alloc : List Bool) (cf : Bool),
      (scull_read dev fpos count alloc cf).dev.size = dev.size) ∧
    (∀ (dev : ScullDev) (fpos : Nat) (b : List Nat) (alloc : List Bool) (cf : Bool),
      dev.size ≤ (scull_write dev fpos b alloc cf).dev.size) ∧
    (∀ (dev : ScullDev) (fpos : Nat) (b : List Nat) (alloc : List Bool),
      (scull_write dev fpos b alloc true).dev.size = dev.size) ∧
    (∀ (q s : Nat) (dev : ScullDev), (scull_trim q s dev).size = 0) := by
  refine ⟨?_, ?_, ?_, ?_, ?_⟩
  · intro dev ws hsz _
    rw [writeSeq_size ws dev, hsz]
  · intro dev fpos count alloc cf
    exact scull_read_size_eq dev fpos count alloc cf
  · intro dev fpos b alloc cf
    exact (scull_write_size_facts dev fpos b alloc cf).1
  · intro dev fpos b alloc
    exact (scull_write_size_facts dev fpos b alloc true).2 rfl
  · intro q s dev
    rfl

theorem scull_size_max_of_writes_witness :
    ((⟨[], 4, 2, 0⟩ : ScullDev).size = 0 ∧ (⟨[], 4, 2, 0⟩ : ScullDev).data = []) ∧
    (writeSeq ⟨[], 4, 2, 0⟩ [(0, [7, 8]), (6, [9])]).1.size =
      (writeSeq ⟨[], 4, 2, 0⟩ [(0, [7, 8]), (6, [9])]).2.foldl max 0 :=
  ⟨⟨rfl, rfl⟩, scull_size_max_of_writes.1 ⟨[], 4, 2, 0⟩ [(0, [7, 8]), (6, [9])] rfl rfl⟩

/-- Claim C10: a read leaves size, quantum, qset and every stored byte
unchanged — the chain after any read is the old chain followed by
some number of fresh empty segment nodes — yet it is not free of
state changes: a read with offset ≤ size whose translated segment
index is at or beyond the current chain length (for instance any read
at offset 0 right after trim, when no segments exist) allocates and
links new empty segments through `scull_follow` before returning zero
bytes transferred. -/
theorem scull_read_frame_and_alloc (dev : ScullDev) (fpos count : Nat)
    (alloc : List Bool) (cf : Bool) :
    (∃ k, (scull_read dev fpos count alloc cf).dev.data =
        dev.data ++ List.replicate k (none : Segment)) ∧
    (scull_read dev fpos count alloc cf).dev.size = dev.size ∧
    (scull_read dev fpos count alloc cf).dev.quantum = dev.quantum ∧
    (scull_read dev fpos count alloc cf).dev.qset = dev.qset ∧
    (fpos ≤ dev.size →
      dev.data.length ≤ (scull_read_translate fpos dev.quantum dev.qset).1 →
      (scull_read dev fpos count [] cf).dev.data.length =
          (scull_read_translate fpos dev.quantum dev.qset).1 + 1 ∧
        dev.data.length < (scull_read dev fpos count [] cf).dev.data.length ∧
        (scull_read dev fpos count [] cf).retval = 0 ∧
        (scull_read dev fpos count [] cf).bytes = []) := by
  obtain ⟨k, hdt, hq, hs, hsz⟩ := scull_follow_frame dev
    (scull_read_translate fpos dev.quantum dev.qset).1 alloc
  have hc := scull_read_dev_cases dev fpos count alloc cf
  refine ⟨?_, ?_, ?_, ?_, ?_⟩
  · rcases hc with h | h
    · exact ⟨0, by rw [h]; simp⟩
    · exact ⟨k, by rw [h, hdt]⟩
  · exact scull_read_size_eq dev fpos count alloc cf
  · rcases hc with h | h
    · rw [h]
    · rw [h, hq]
  · rcases hc with h | h
    · rw [h]
    · rw [h, hs]
  · intro h1 h2
    have hf := scull_follow_nil dev (scull_read_translate fpos dev.quantum dev.qset).1
    have hgd : (dev.data ++ List.replicate
        ((scull_read_translate fpos dev.quantum dev.qset).1 + 1 - dev.data.length)
        (none : Segment)).getD (scull_read_translate fpos dev.quantum dev.qset).1 none
        = none := getD_append_replicate_none _ _ _ h2
    rw [List.getD_eq_getElem?_getD] at hgd
    have h3 : ¬ dev.size < fpos := by omega
    refine ⟨?_, ?_, ?_, ?_⟩ <;>
      simp [scull_read, hf, hgd, h3] <;> omega

theorem scull_read_frame_and_alloc_witness :
    ((0 : Nat) ≤ (⟨[], 4, 2, 0⟩ : ScullDev).size ∧
      (⟨[], 4, 2, 0⟩ : ScullDev).data.length ≤
        (scull_read_translate 0 (⟨[], 4, 2, 0⟩ : ScullDev).quantum
          (⟨[], 4, 2, 0⟩ : ScullDev).qset).1) ∧
    ((scull_read ⟨[], 4, 2, 0⟩ 0 3 [] false).dev.data.length =
        (scull_read_translate 0 (⟨[], 4, 2, 0⟩ : ScullDev).quantum
          (⟨[], 4, 2, 0⟩ : ScullDev).qset).1 + 1 ∧
      (⟨[], 4, 2, 0⟩ : ScullDev).data.length <
        (scull_read ⟨[], 4, 2, 0⟩ 0 3 [] false).dev.data.length ∧
      (scull_read ⟨[], 4, 2, 0⟩ 0 3 [] false).retval = 0 ∧
      (scull_read ⟨[], 4, 2, 0⟩ 0 3 [] false).bytes = []) :=
  ⟨⟨by decide, by decide⟩,
    (scull_read_frame_and_alloc ⟨[], 4, 2, 0⟩ 0 3 [] false).2.2.2.2
      (by decide) (by decide)⟩
